import Mathlib

/-!
Verification of the in-memory key-value emulator core
(PDK/core/src/device_abstract_layer/emulator/src/kv_emulator.cpp).

Keys and values are byte strings, modelled as lists of byte values.
The mutable emulator state (m_capacity, m_available, m_map) is threaded
explicitly; m_available is a uint64 counter, so its updates wrap mod 2 ^ 64.
-/

/-- Byte content of a kv_key (its length is the list length). -/
abbrev Key := List Nat

/-- Byte content of a kv_value. -/
abbrev Val := List Nat

/-- Modelled from the spec: the ordered-map comparator for m_map is declared in
kv_emulator.hpp, which is not among these sources; the spec (section 3) fixes
the order as raw byte-content comparison, i.e. lexicographic over bytes with a
proper prefix ordered first. -/
def keyLt : Key → Key → Bool
  | [], [] => false
  | [], _ :: _ => true
  | _ :: _, [] => false
  | a :: as, b :: bs => if a < b then true else if b < a then false else keyLt as bs

/-- uint64 addition with wraparound, for m_available updates. -/
def add64 (a b : Nat) : Nat := (a + b) % 2 ^ 64

/-- uint64 subtraction with wraparound, for m_available updates. -/
def sub64 (a b : Nat) : Nat := (a + (2 ^ 64 - b % 2 ^ 64)) % 2 ^ 64

/-- Result codes returned by the emulator (kv_result values used in the file). -/
inductive KvResult where
  | success
  | wrnMore
  | errDevCapacity
  | errKeyExist
  | errKeyNotExist
  | errValueOffsetInvalid
  | errBufferSmall
  | errKeyInvalid
  | errOptionInvalid
  | errParamNull
  | errIteratorEnd
  | errTooManyIterators
  | errDevInit
deriving DecidableEq, Repr

/-- The emulator store state: m_capacity, m_available and m_map.  The map is a
list of entries kept sorted by keyLt with distinct keys. -/
structure EmuState where
  capacity : Nat
  available : Nat
  entries : List (Key × Val)
deriving DecidableEq, Repr

/-- m_map.find: under the raw byte comparator, comparator equivalence of two
keys is exactly equality of their byte content. -/
def findEntry (l : List (Key × Val)) (k : Key) : Option Val :=
  match l with
  | [] => none
  | e :: tl => if e.1 = k then some e.2 else findEntry tl k

/-- Overwrite of it->second for an existing key (kv_emulator.cpp:104). -/
def updateEntry (l : List (Key × Val)) (k : Key) (v : Val) : List (Key × Val) :=
  match l with
  | [] => []
  | e :: tl => if e.1 = k then (k, v) :: tl else e :: updateEntry tl k v

/-- m_map.emplace of a fresh key (kv_emulator.cpp:113): ordered insertion. -/
def insertEntry (l : List (Key × Val)) (k : Key) (v : Val) : List (Key × Val) :=
  match l with
  | [] => [(k, v)]
  | e :: tl => if keyLt k e.1 then (k, v) :: e :: tl else e :: insertEntry tl k v

/-- m_map.erase of a found entry (kv_emulator.cpp:249). -/
def eraseEntry (l : List (Key × Val)) (k : Key) : List (Key × Val) :=
  match l with
  | [] => []
  | e :: tl => if e.1 = k then tl else e :: eraseEntry tl k

/-- Sum of key.length + value.length over the live entries. -/
def liveBytes (l : List (Key × Val)) : Nat :=
  match l with
  | [] => 0
  | e :: tl => e.1.length + e.2.length + liveBytes tl

/-- Output of kv_store: result code, new state, and the pointee of
consumed_bytes (written only on the success paths). -/
structure StoreOut where
  res : KvResult
  st : EmuState
  consumed : Option Nat
deriving DecidableEq, Repr

/-- kv_emulator::kv_store (kv_emulator.cpp:78).  The capacity check runs first;
for an existing key the source subtracts value->length + it->second.length()
from m_available (kv_emulator.cpp:101) and overwrites the value; for a fresh
key it inserts a copy and subtracts key->length + value->length. -/
def kv_store (st : EmuState) (key : Key) (value : Val) (idempotent : Bool) : StoreOut :=
  if st.capacity ≠ 0 ∧ st.available < value.length + key.length then
    ⟨.errDevCapacity, st, none⟩
  else
    match findEntry st.entries key with
    | some old =>
      if idempotent then ⟨.errKeyExist, st, none⟩
      else
        ⟨.success,
         { st with
             available := sub64 st.available (value.length + old.length),
             entries := updateEntry st.entries key value },
         some value.length⟩
    | none =>
        ⟨.success,
         { st with
             available := sub64 st.available (key.length + value.length),
             entries := insertEntry st.entries key value },
         some (key.length + value.length)⟩

/-- Output of kv_retrieve: result code, state after the call, the bytes copied
into the caller buffer, and the value->length field after the call. -/
structure RetrieveOut where
  res : KvResult
  st : EmuState
  bufOut : Option (List Nat)
  lenOut : Option Nat
deriving DecidableEq, Repr

/-- kv_emulator::kv_retrieve (kv_emulator.cpp:134).  off is value->offset and
cap is the caller buffer capacity value->length; on success the source copies
min(dlen - offset, value->length) bytes starting at the offset and stores the
copied length back into value->length. -/
def kv_retrieve (st : EmuState) (key : Key) (off cap : Nat) : RetrieveOut :=
  match findEntry st.entries key with
  | none => ⟨.errKeyNotExist, st, none, none⟩
  | some v =>
    if v.length ≤ off then ⟨.errValueOffsetInvalid, st, none, none⟩
    else
      ⟨.success, st, some ((v.drop off).take (min (v.length - off) cap)),
        some (min (v.length - off) cap)⟩

/-- Output of kv_delete: result code, new state, and the value stored through
recovered_bytes (none when the source does not write it). -/
structure DeleteOut where
  res : KvResult
  st : EmuState
  written : Option Nat
deriving DecidableEq, Repr

/-- kv_emulator::kv_delete (kv_emulator.cpp:231).  key is none when the caller
passes a NULL kv_key or NULL key bytes.  recNonNull says whether the caller
passed a non-NULL recovered_bytes pointer; written is the value stored through
it, none when the source leaves the pointee untouched. -/
def kv_delete (st : EmuState) (key : Option Key) (recNonNull : Bool) : DeleteOut :=
  match key with
  | none => ⟨.errKeyInvalid, st, none⟩
  | some k =>
    match findEntry st.entries k with
    | none => ⟨.success, st, none⟩
    | some v =>
      ⟨.success,
       { st with
           available := add64 st.available (k.length + v.length),
           entries := eraseEntry st.entries k },
       if recNonNull then some (k.length + v.length) else none⟩

/-- kv_emulator::kv_purge (kv_emulator.cpp:211).  The erase loop removes every
entry (as written it also increments an already erased iterator; the effect
modelled is the full clear) and resets m_available to m_capacity. -/
def kv_purge (st : EmuState) (defaultOpt : Bool) : KvResult × EmuState :=
  if defaultOpt = false then (.errOptionInvalid, st)
  else (.success, { st with entries := [], available := st.capacity })

/-- Little-endian bytes of a uint32, as produced by memcpy of the 4-byte
prefix value on the x86-64 target (kv_emulator.cpp:277 and 538). -/
def le32bytes (n : Nat) : Key :=
  [n % 256, n / 256 % 256, n / 65536 % 256, n / 16777216 % 256]

/-- The uint32 read by memcpy(&prefix, key, 4) on the little-endian target
(kv_emulator.cpp:330, 431, 550).  For keys shorter than 4 bytes the source
reads past the key buffer; those bytes are modelled as 0. -/
def leading4 (k : Key) : Nat :=
  k.getD 0 0 + 256 * k.getD 1 0 + 65536 * k.getD 2 0 + 16777216 * k.getD 3 0

/-- The group-condition test of kv_delete_group (kv_emulator.cpp:555):
the loop keeps deleting while ((prefix & bitmask) & bit_pattern) == to_match
with to_match = bitmask & bit_pattern. -/
def dgMatch (m p pref : Nat) : Bool :=
  ((pref &&& m) &&& p) == (m &&& p)

/-- The deletion loop of kv_delete_group (kv_emulator.cpp:548): starting from
lower_bound, reclaim key.length + value.length into m_available per matching
entry and erase it; stop at the first non-matching entry. -/
def dgLoop (m p : Nat) (l : List (Key × Val)) (avail : Nat) : List (Key × Val) × Nat :=
  match l with
  | [] => ([], avail)
  | e :: tl =>
    if dgMatch m p (leading4 e.1) = false then (e :: tl, avail)
    else dgLoop m p tl (add64 avail (e.1.length + e.2.length))

/-- Output of kv_delete_group: result code, new state, and the pointee of
recovered_bytes after the call. -/
structure DeleteGroupOut where
  res : KvResult
  st : EmuState
  recOut : Nat
deriving DecidableEq, Repr

/-- kv_emulator::kv_delete_group (kv_emulator.cpp:532).  rec0 is the prior
value of the caller variable behind recovered_bytes; the source never stores
through that pointer, so the pointee keeps its prior value.  The scan starts
at lower_bound of the 4-byte key holding bitmask & bit_pattern. -/
def kv_delete_group (st : EmuState) (m p : Nat) (rec0 : Nat) : DeleteGroupOut :=
  let minkey := le32bytes (m &&& p)
  let pre := st.entries.takeWhile (fun e => keyLt e.1 minkey)
  let suf := st.entries.dropWhile (fun e => keyLt e.1 minkey)
  let r := dgLoop m p suf st.available
  ⟨.success, { st with entries := pre ++ r.1, available := r.2 }, rec0⟩

/-- Claim C1: the capacity invariant available + liveBytes == capacity is
claimed to hold after every store; it is broken by a store that overwrites an
existing key, because the overwrite branch subtracts value->length plus the
old value length from m_available instead of applying the net delta.  With
capacity 100, after store([0,0,0,1],[7,7]) and an overwriting
store([0,0,0,1],[9]), available is 91 while live bytes are 5. -/
theorem store_overwrite_breaks_capacity_invariant :
    let st0 : EmuState := ⟨100, 100, []⟩
    let r1 := kv_store st0 [0, 0, 0, 1] [7, 7] false
    let r2 := kv_store r1.st [0, 0, 0, 1] [9] false
    r1.st.available + liveBytes r1.st.entries = 100 ∧
    r2.st.available = 91 ∧ liveBytes r2.st.entries = 5 ∧
    r2.st.available + liveBytes r2.st.entries = 96 ∧
    r2.st.capacity = 100 ∧ (96 : Nat) ≠ 100 := by
  decide

/-- Claim C2: on an overwriting store the value is replaced and
consumed_bytes = value.length as claimed, but available moves from 94 to 91,
a delta of -(new + old) = -3, not the claimed old - new = +1 (which would
give 95): the source subtracts both lengths (kv_emulator.cpp:101). -/
theorem store_overwrite_available_delta :
    let st0 : EmuState := ⟨100, 100, []⟩
    let r1 := kv_store st0 [0, 0, 0, 1] [7, 7] false
    let r2 := kv_store r1.st [0, 0, 0, 1] [9] false
    r1.st.available = 94 ∧
    r2.res = KvResult.success ∧
    r2.consumed = some 1 ∧
    findEntry r2.st.entries [0, 0, 0, 1] = some [9] ∧
    r2.st.available = 91 ∧
    r2.st.available ≠ 94 + 2 - 1 := by
  decide

/-- Iterator mode constants KV_ITERATOR_OPT_KEY / _KV / _KV_WITH_DELETE. -/
inductive IterOpt where
  | key
  | kv
  | kvWithDelete
deriving DecidableEq, Repr

/-- include_value at kv_emulator.cpp:297 and 402. -/
def includeV (o : IterOpt) : Bool := o == IterOpt.kv || o == IterOpt.kvWithDelete

/-- delete_value at kv_emulator.cpp:298 and 403. -/
def deleteV (o : IterOpt) : Bool := o == IterOpt.kvWithDelete

/-- An open iterator handle (_kv_iterator_handle).  current_key carries its own
length, standing for the current_key buffer together with keylength. -/
structure IterHandle where
  it_op : IterOpt
  bitmask : Nat
  bit_pattern : Nat
  has_fixed_keylen : Bool
  current_key : Key
  ended : Bool
deriving DecidableEq, Repr

/-- Handle construction in kv_open_iterator (kv_emulator.cpp:269): the cursor
is the 4-byte little-endian image of bit_pattern & bitmask and the end flag is
clear. -/
def mkIterHandle (opt : IterOpt) (m p : Nat) (fixedK : Bool) : IterHandle :=
  { it_op := opt, bitmask := m, bit_pattern := p, has_fixed_keylen := fixedK,
    current_key := le32bytes (p &&& m), ended := false }

/-- kv_emulator::kv_open_iterator (kv_emulator.cpp:258) over the open-handle
registry m_it_map; maxIters stands for SAMSUNG_MAX_ITERATORS, whose value
lives in the missing header. -/
def kv_open_iterator (registry : List IterHandle) (maxIters : Nat) (opt : IterOpt)
    (m p : Nat) (fixedK : Bool) : KvResult × List IterHandle × Option IterHandle :=
  if maxIters ≤ registry.length then (.errTooManyIterators, registry, none)
  else
    let h := mkIterHandle opt m p fixedK
    (.success, registry ++ [h], some h)

/-- The group-condition test of kv_iterator_next_set (kv_emulator.cpp:333):
the batch loop stops at the first entry with
((prefix & bitmask) & bit_pattern) != to_match, to_match = bitmask & bit_pattern. -/
def nextSetMatch (m p pref : Nat) : Bool :=
  ((pref &&& m) &&& p) == (m &&& p)

/-- The group-condition test of kv_iterator_next (kv_emulator.cpp:434), the
same expression as in the batch variant. -/
def nextMatch (m p pref : Nat) : Bool :=
  ((pref &&& m) &&& p) == (m &&& p)

/-- The combined continue condition of the batch loop: the match is attempted
only when iterate_all (bitmask == 0) is false (kv_emulator.cpp:328), so the
loop keeps an entry when iterate_all holds or the test passes. -/
def stepOk (iterAll : Bool) (m p : Nat) (k : Key) : Bool :=
  iterAll || nextSetMatch m p (leading4 k)

/-- The datasize reserved for one record (kv_emulator.cpp:342): key length,
plus sizeof(kv_key::key) = 8 (a pointer member) unless the key length is
fixed, plus value length + sizeof(kv_value::value) = 8 when values are
included. -/
def checkSize (inclV fixedK : Bool) (e : Key × Val) : Nat :=
  e.1.length + (if fixedK then 0 else 8) + (if inclV then e.2.length + 8 else 0)

/-- The bytes actually appended for one record (kv_emulator.cpp:361).
Modelled from the spec: the length prefixes have the sizes of kv_key_t and
kv_value_t, which are declared in the missing kv_types header; the spec fixes
4-byte key-length and value-length prefixes. -/
def writeSize (inclV fixedK : Bool) (e : Key × Val) : Nat :=
  e.1.length + (if fixedK then 0 else 4) + (if inclV then e.2.length + 4 else 0)

/-- Outcome of the batch scan loop: keys appended to the buffer in order, the
end flag, the cursor key saved on a full buffer, and the entries remaining in
the map suffix that was scanned. -/
structure LoopOut where
  yielded : List Key
  endFlag : Bool
  saved : Option Key
  rest : List (Key × Val)
deriving DecidableEq, Repr

/-- The while loop of kv_iterator_next_set (kv_emulator.cpp:323): per entry,
break with end = TRUE at the first failing match; break with end = FALSE and
save the key as the cursor when the reserved datasize does not fit; otherwise
append the record, erase the entry in delete-on-read mode, and continue. -/
def nextSetLoop (iterAll : Bool) (m p : Nat) (inclV delV fixedK : Bool) (bufSize : Nat) :
    List (Key × Val) → Nat → LoopOut
  | [], _ => ⟨[], true, none, []⟩
  | e :: tl, pos =>
    if stepOk iterAll m p e.1 = false then
      ⟨[], true, none, e :: tl⟩
    else if bufSize < pos + checkSize inclV fixedK e then
      ⟨[], false, some e.1, e :: tl⟩
    else
      let r := nextSetLoop iterAll m p inclV delV fixedK bufSize tl (pos + writeSize inclV fixedK e)
      ⟨e.1 :: r.yielded, r.endFlag, r.saved, if delV then r.rest else e :: r.rest⟩

/-- Output of kv_iterator_next_set: result code, iter_list->num_entries,
iter_list->end, the keys of the records serialized into the buffer, the handle
after the call and the map after the call. -/
structure NextSetOut where
  res : KvResult
  numEntries : Nat
  endFlag : Bool
  yielded : List Key
  hdl : IterHandle
  entries : List (Key × Val)
deriving DecidableEq, Repr

/-- kv_emulator::kv_iterator_next_set (kv_emulator.cpp:290).  The scan starts
at lower_bound of the cursor key; KV_WRN_MORE is returned exactly when the
loop stopped on a full buffer.  The end flag of the handle itself is never
touched here. -/
def kv_iterator_next_set (h : IterHandle) (bufSize : Nat)
    (entries : List (Key × Val)) : NextSetOut :=
  let inclV := includeV h.it_op
  let delV := deleteV h.it_op
  let iterate_all := h.bitmask == 0
  let pre := entries.takeWhile (fun e => keyLt e.1 h.current_key)
  let suf := entries.dropWhile (fun e => keyLt e.1 h.current_key)
  let r := nextSetLoop iterate_all h.bitmask h.bit_pattern inclV delV h.has_fixed_keylen bufSize suf 0
  { res := if r.endFlag then .success else .wrnMore
    numEntries := r.yielded.length
    endFlag := r.endFlag
    yielded := r.yielded
    hdl := match r.saved with
           | some ck => { h with current_key := ck }
           | none => h
    entries := pre ++ r.rest }

/-- memcpy of klength bytes out of the next key buffer into current_key
(kv_emulator.cpp:482): when the next key is shorter than klength the source
reads past it; the missing bytes are modelled as 0. -/
def takePad (n : Nat) (k : Key) : Key :=
  k.take n ++ List.replicate (n - k.length) 0

/-- Output of kv_iterator_next: result code, the fields written through the
caller kv_key and kv_value, the handle after the call and the map after the
call.  none marks a field the call does not write. -/
structure NextOut where
  res : KvResult
  keyLenOut : Option Nat
  keyBytesOut : Option Key
  valLenOut : Option Nat
  valOffOut : Option Nat
  valBytesOut : Option Val
  hdl : IterHandle
  entries : List (Key × Val)
deriving DecidableEq, Repr

/-- kv_emulator::kv_iterator_next (kv_emulator.cpp:395).  keyCap and valCap
are the capacities the caller passed in key->length and value->length.  The
source first overwrites key->length with klength (kv_emulator.cpp:441) and
only then compares klength > key->length, so that buffer check can never
fire; the comparison is transcribed as in the source.  The NULL-parameter
guard (KV_ERR_PARAM_NULL) is not modelled: the buffers are always supplied
here. -/
def kv_iterator_next (h : IterHandle) (keyCap valCap : Nat)
    (entries : List (Key × Val)) : NextOut :=
  let include_value := includeV h.it_op
  let delete_value := deleteV h.it_op
  if h.ended then ⟨.errIteratorEnd, none, none, none, none, none, h, entries⟩
  else
    let pre := entries.takeWhile (fun e => keyLt e.1 h.current_key)
    let suf := entries.dropWhile (fun e => keyLt e.1 h.current_key)
    match suf with
    | [] => ⟨.errIteratorEnd, none, none, none, none, none, h, entries⟩
    | e :: tail =>
      let klength := e.1.length
      let vlength := e.2.length
      if nextMatch h.bitmask h.bit_pattern (leading4 e.1) = false then
        ⟨.errIteratorEnd, none, none, none, none, none, h, entries⟩
      else
        -- key->length = klength, then the dead comparison klength > key->length
        let keyLen1 := klength
        if keyLen1 < klength then
          ⟨.errBufferSmall, some klength, none, none, none, none,
           { h with current_key := e.1 }, entries⟩
        else if include_value && decide (valCap < vlength) then
          ⟨.errBufferSmall, some klength, none, some 0, some 0, none,
           { h with current_key := e.1 }, entries⟩
        else
          let entries2 := if delete_value then pre ++ tail else entries
          match tail with
          | n :: _ =>
            ⟨.success, some klength, some e.1,
             if include_value then some vlength else none,
             if include_value then some 0 else none,
             if include_value then some e.2 else none,
             { h with current_key := takePad klength n.1 }, entries2⟩
          | [] =>
            ⟨.success, some klength, some e.1,
             if include_value then some vlength else none,
             if include_value then some 0 else none,
             if include_value then some e.2 else none,
             { h with ended := true }, entries2⟩

/-- The loop of kv_list_iterators (kv_emulator.cpp:517): the index i is never
incremented in the source, so every open handle is written to slot 0 of the
output array (when the capacity maxc allows index 0) and the final count is
the starting index.  A slot holds itid, iter_op and the copied condition. -/
def listItersLoop (maxc : Nat) (l : List IterHandle) (i : Nat)
    (slot0 : Option (Nat × IterOpt × Nat × Nat)) : Nat × Option (Nat × IterOpt × Nat × Nat) :=
  match l with
  | [] => (i, slot0)
  | h :: tl =>
    listItersLoop maxc tl i
      (if i < maxc then some (i, h.it_op, h.bitmask, h.bit_pattern) else slot0)

/-- Output of kv_list_iterators: result code, the count written back through
count, and the final content of slot 0 of the output array (the only slot the
source ever addresses). -/
structure ListItersOut where
  res : KvResult
  countOut : Nat
  slot0 : Option (Nat × IterOpt × Nat × Nat)
deriving DecidableEq, Repr

/-- kv_emulator::kv_list_iterators (kv_emulator.cpp:506).  countIn is the
capacity the caller passed through count.  The condition copy through the
caller pointer is modelled for a non-NULL iter_cond. -/
def kv_list_iterators (handles : List IterHandle) (countIn : Nat) : ListItersOut :=
  let r := listItersLoop countIn handles 0 none
  ⟨.success, r.1, r.2⟩

theorem keyLt_irrefl : ∀ k : Key, keyLt k k = false
  | [] => rfl
  | _ :: as => by simp [keyLt, keyLt_irrefl as]

/-- The match formula in the words of the spec and of claim C3:
(leading_4_bytes(key) & bitmask) == (bitmask & pattern). -/
def claimMatch (m p : Nat) (k : Key) : Bool :=
  (leading4 k &&& m) == (m &&& p)

/-- The match formula the emulator actually computes at all three sites:
((leading_4_bytes(key) & bitmask) & pattern) == (bitmask & pattern). -/
def amendedMatch (m p : Nat) (k : Key) : Bool :=
  ((leading4 k &&& m) &&& p) == (m &&& p)

theorem amendedMatch_mask_zero (p : Nat) (k : Key) : amendedMatch 0 p k = true := by
  simp [amendedMatch, Nat.and_zero, Nat.zero_and]

theorem stepOk_eq_amended (m p : Nat) (k : Key) :
    stepOk (m == 0) m p k = amendedMatch m p k := by
  by_cases hm : m = 0
  · subst hm
    simp [stepOk, amendedMatch_mask_zero]
  · simp [stepOk, hm, nextSetMatch, amendedMatch]

/-- Claim C3 (amended): the tests used by batch iteration, single-result
iteration and group deletion all accept a stored key of length at least 4
exactly when ((leading_4_bytes & bitmask) & pattern) == (bitmask & pattern)
— not when (leading_4_bytes & bitmask) == (bitmask & pattern) as claimed —
and a bitmask of 0 accepts every key.  The acceptance is also shown
behaviorally on a singleton store for all three operations. -/
theorem match_test_amended (m p : Nat) (k : Key) (v : Val) (h4 : 4 ≤ k.length)
    (kcap vcap : Nat) :
    nextSetMatch m p (leading4 k) = amendedMatch m p k ∧
    nextMatch m p (leading4 k) = amendedMatch m p k ∧
    dgMatch m p (leading4 k) = amendedMatch m p k ∧
    (m = 0 → amendedMatch m p k = true) ∧
    (kv_iterator_next_set ⟨IterOpt.key, m, p, false, k, false⟩ (k.length + 8) [(k, v)]).yielded
      = (if amendedMatch m p k then [k] else []) ∧
    (kv_iterator_next ⟨IterOpt.key, m, p, false, k, false⟩ kcap vcap [(k, v)]).res
      = (if amendedMatch m p k then KvResult.success else KvResult.errIteratorEnd) ∧
    (dgLoop m p [(k, v)] 0).1 = (if amendedMatch m p k then [] else [(k, v)]) := by
  refine ⟨rfl, rfl, rfl, fun hm => by subst hm; exact amendedMatch_mask_zero p k, ?_, ?_, ?_⟩
  · cases ha : amendedMatch m p k <;>
      simp [kv_iterator_next_set, keyLt_irrefl, nextSetLoop, stepOk_eq_amended, ha,
        includeV, deleteV, checkSize, writeSize]
  · have hn : nextMatch m p (leading4 k) = amendedMatch m p k := rfl
    cases ha : amendedMatch m p k <;>
      simp [kv_iterator_next, keyLt_irrefl, hn, ha, includeV, deleteV]
  · have hd : dgMatch m p (leading4 k) = amendedMatch m p k := rfl
    cases ha : amendedMatch m p k <;> simp [dgLoop, hd, ha]

/-- Claim C3 witness for the amended theorem at bitmask 3, pattern 5,
key [0,0,0,0], value [1]. -/
theorem match_test_amended_witness :
    4 ≤ ([0, 0, 0, 0] : Key).length ∧
    (nextSetMatch 3 5 (leading4 [0, 0, 0, 0]) = amendedMatch 3 5 [0, 0, 0, 0] ∧
     nextMatch 3 5 (leading4 [0, 0, 0, 0]) = amendedMatch 3 5 [0, 0, 0, 0] ∧
     dgMatch 3 5 (leading4 [0, 0, 0, 0]) = amendedMatch 3 5 [0, 0, 0, 0] ∧
     ((3 : Nat) = 0 → amendedMatch 3 5 [0, 0, 0, 0] = true) ∧
     (kv_iterator_next_set ⟨IterOpt.key, 3, 5, false, [0, 0, 0, 0], false⟩
        (([0, 0, 0, 0] : Key).length + 8) [([0, 0, 0, 0], [1])]).yielded
       = (if amendedMatch 3 5 [0, 0, 0, 0] then [[0, 0, 0, 0]] else []) ∧
     (kv_iterator_next ⟨IterOpt.key, 3, 5, false, [0, 0, 0, 0], false⟩ 0 0
        [([0, 0, 0, 0], [1])]).res
       = (if amendedMatch 3 5 [0, 0, 0, 0] then KvResult.success else KvResult.errIteratorEnd) ∧
     (dgLoop 3 5 [([0, 0, 0, 0], [1])] 0).1
       = (if amendedMatch 3 5 [0, 0, 0, 0] then [] else [([0, 0, 0, 0], [1])])) :=
  ⟨by decide, match_test_amended 3 5 [0, 0, 0, 0] [1] (by decide) 0 0⟩

/-- Claim C3 counterexample: with bitmask 1, pattern 0 and key [1,0,0,0]
(leading 4 bytes = 1) the claimed formula rejects the key, yet the emulator
test accepts it, and single-result iteration yields it. -/
theorem match_test_counterexample :
    nextMatch 1 0 (leading4 [1, 0, 0, 0]) = true ∧
    claimMatch 1 0 [1, 0, 0, 0] = false ∧
    (kv_iterator_next ⟨IterOpt.key, 1, 0, false, [1, 0, 0, 0], false⟩ 16 16
       [([1, 0, 0, 0], [5])]).res = KvResult.success := by
  decide

/-- Claim C4: with a stored 8-byte key, a fresh match-all iterator and a
caller key buffer of capacity 4, kv_iterator_next is claimed to fail
BufferTooSmall without consuming; instead it succeeds, reports key length 8,
copies all 8 key bytes past the caller capacity and consumes the entry: the
source overwrites key->length with klength before comparing klength against
it, so the too-small branch can never fire. -/
theorem iterator_next_key_buffer_check_dead :
    (kv_iterator_next (mkIterHandle IterOpt.key 0 0 false) 4 0
       [([0, 0, 0, 0, 1, 2, 3, 4], [9])]).res = KvResult.success ∧
    (kv_iterator_next (mkIterHandle IterOpt.key 0 0 false) 4 0
       [([0, 0, 0, 0, 1, 2, 3, 4], [9])]).keyLenOut = some 8 ∧
    (kv_iterator_next (mkIterHandle IterOpt.key 0 0 false) 4 0
       [([0, 0, 0, 0, 1, 2, 3, 4], [9])]).keyBytesOut = some [0, 0, 0, 0, 1, 2, 3, 4] ∧
    (kv_iterator_next (mkIterHandle IterOpt.key 0 0 false) 4 0
       [([0, 0, 0, 0, 1, 2, 3, 4], [9])]).hdl.ended = true := by
  decide

theorem dgLoop_spec (m p : Nat) :
    ∀ (l : List (Key × Val)) (a : Nat),
      dgLoop m p l a =
        (l.dropWhile (fun e => dgMatch m p (leading4 e.1)),
         (l.takeWhile (fun e => dgMatch m p (leading4 e.1))).foldl
           (fun acc e => add64 acc (e.1.length + e.2.length)) a)
  | [], _ => rfl
  | e :: tl, a => by
    cases hm : dgMatch m p (leading4 e.1) <;>
      simp [dgLoop, hm, List.dropWhile, List.takeWhile, dgLoop_spec m p tl]

/-- Claim C5 (amended): kv_delete_group removes exactly the leading run of
matching entries at and after the 4-byte start key, accumulates their
key.length + value.length into m_available, and never writes the caller
recovered-bytes output: the pointee keeps its prior value. -/
theorem delete_group_amended (st : EmuState) (m p rec0 : Nat) :
    (kv_delete_group st m p rec0).res = KvResult.success ∧
    (kv_delete_group st m p rec0).recOut = rec0 ∧
    (kv_delete_group st m p rec0).st.capacity = st.capacity ∧
    (kv_delete_group st m p rec0).st.entries =
      st.entries.takeWhile (fun e => keyLt e.1 (le32bytes (m &&& p))) ++
        ((st.entries.dropWhile (fun e => keyLt e.1 (le32bytes (m &&& p)))).dropWhile
          (fun e => dgMatch m p (leading4 e.1))) ∧
    (kv_delete_group st m p rec0).st.available =
      ((st.entries.dropWhile (fun e => keyLt e.1 (le32bytes (m &&& p)))).takeWhile
          (fun e => dgMatch m p (leading4 e.1))).foldl
        (fun acc e => add64 acc (e.1.length + e.2.length)) st.available := by
  simp [kv_delete_group, dgLoop_spec]

/-- Claim C5 counterexample: one stored matching entry of total size 6,
recovered-byte output requested with prior value 0; after kv_delete_group the
entry is gone and available grew by 6, but the output still holds 0, not the
claimed accumulated sum 6. -/
theorem delete_group_recovered_bytes_unwritten :
    (kv_delete_group ⟨0, 50, [([0, 0, 0, 0], [1, 2])]⟩ 0 0 0).st.entries = [] ∧
    (kv_delete_group ⟨0, 50, [([0, 0, 0, 0], [1, 2])]⟩ 0 0 0).st.available = 56 ∧
    liveBytes [([0, 0, 0, 0], [1, 2])] = 6 ∧
    (kv_delete_group ⟨0, 50, [([0, 0, 0, 0], [1, 2])]⟩ 0 0 0).recOut = 0 ∧
    (0 : Nat) ≠ 6 := by
  decide

/-- Claim C6: with one open handle and output capacity 1, kv_list_iterators is
claimed to write min(1,1) = 1 entry and report 1; instead it reports 0 (the
loop index is never incremented in the source) while writing the handle data
into slot 0. -/
theorem list_iterators_count_always_zero :
    (kv_list_iterators [mkIterHandle IterOpt.key 3 5 false] 1).res = KvResult.success ∧
    (kv_list_iterators [mkIterHandle IterOpt.key 3 5 false] 1).slot0
      = some (0, IterOpt.key, 3, 5) ∧
    (kv_list_iterators [mkIterHandle IterOpt.key 3 5 false] 1).countOut = 0 ∧
    (kv_list_iterators [mkIterHandle IterOpt.key 3 5 false] 1).countOut ≠ min 1 1 := by
  decide

/-- Claim C10: when the first entry at or after the cursor passes the match
test but its reserved datasize exceeds the buffer, kv_iterator_next_set
returns the more-data status with zero entries reported, saves that key as
the cursor, and leaves the store unchanged. -/
theorem next_set_first_record_too_big (h : IterHandle) (bufSize : Nat)
    (entries : List (Key × Val)) (e : Key × Val) (tl : List (Key × Val))
    (hsuf : entries.dropWhile (fun x => keyLt x.1 h.current_key) = e :: tl)
    (hok : stepOk (h.bitmask == 0) h.bitmask h.bit_pattern e.1 = true)
    (hbig : bufSize < checkSize (includeV h.it_op) h.has_fixed_keylen e) :
    (kv_iterator_next_set h bufSize entries).res = KvResult.wrnMore ∧
    (kv_iterator_next_set h bufSize entries).numEntries = 0 ∧
    (kv_iterator_next_set h bufSize entries).endFlag = false ∧
    (kv_iterator_next_set h bufSize entries).hdl = { h with current_key := e.1 } ∧
    (kv_iterator_next_set h bufSize entries).entries = entries := by
  have hsplit := List.takeWhile_append_dropWhile
    (p := fun x => keyLt x.1 h.current_key) (l := entries)
  rw [hsuf] at hsplit
  simp [kv_iterator_next_set, hsuf, nextSetLoop, hok, hbig, hsplit]

/-- Claim C10 witness: cursor [0,0,0,0], one 4-byte key with datasize 12 and a
5-byte buffer. -/
theorem next_set_first_record_too_big_witness :
    (([([0, 0, 0, 0], [1])] : List (Key × Val)).dropWhile
        (fun x => keyLt x.1 (⟨IterOpt.key, 0, 0, false, [0, 0, 0, 0], false⟩ : IterHandle).current_key)
      = [([0, 0, 0, 0], [1])]) ∧
    stepOk (((⟨IterOpt.key, 0, 0, false, [0, 0, 0, 0], false⟩ : IterHandle).bitmask == 0))
      0 0 [0, 0, 0, 0] = true ∧
    (5 < checkSize (includeV IterOpt.key) false ([0, 0, 0, 0], [1])) ∧
    ((kv_iterator_next_set ⟨IterOpt.key, 0, 0, false, [0, 0, 0, 0], false⟩ 5
        [([0, 0, 0, 0], [1])]).res = KvResult.wrnMore ∧
     (kv_iterator_next_set ⟨IterOpt.key, 0, 0, false, [0, 0, 0, 0], false⟩ 5
        [([0, 0, 0, 0], [1])]).numEntries = 0 ∧
     (kv_iterator_next_set ⟨IterOpt.key, 0, 0, false, [0, 0, 0, 0], false⟩ 5
        [([0, 0, 0, 0], [1])]).endFlag = false ∧
     (kv_iterator_next_set ⟨IterOpt.key, 0, 0, false, [0, 0, 0, 0], false⟩ 5
        [([0, 0, 0, 0], [1])]).hdl
       = { (⟨IterOpt.key, 0, 0, false, [0, 0, 0, 0], false⟩ : IterHandle) with
             current_key := [0, 0, 0, 0] } ∧
     (kv_iterator_next_set ⟨IterOpt.key, 0, 0, false, [0, 0, 0, 0], false⟩ 5
        [([0, 0, 0, 0], [1])]).entries = [([0, 0, 0, 0], [1])]) :=
  ⟨by decide, by decide, by decide,
   next_set_first_record_too_big ⟨IterOpt.key, 0, 0, false, [0, 0, 0, 0], false⟩ 5
     [([0, 0, 0, 0], [1])] ([0, 0, 0, 0], [1]) [] (by decide) (by decide) (by decide)⟩

/-- Claim C7: kv_retrieve fails KeyNotFound when the key is absent; with the
key present it fails InvalidOffset exactly when offset >= stored length, and
otherwise copies min(stored.length - offset, caller capacity) bytes of the
stored value starting at the offset, reports that count, and leaves the state
(map and available) unchanged. -/
theorem retrieve_spec (st : EmuState) (k : Key) (off cap : Nat) :
    (findEntry st.entries k = none →
      kv_retrieve st k off cap = ⟨KvResult.errKeyNotExist, st, none, none⟩) ∧
    (∀ v, findEntry st.entries k = some v →
      (v.length ≤ off →
        kv_retrieve st k off cap = ⟨KvResult.errValueOffsetInvalid, st, none, none⟩) ∧
      (off < v.length →
        kv_retrieve st k off cap =
          ⟨KvResult.success, st, some ((v.drop off).take (min (v.length - off) cap)),
           some (min (v.length - off) cap)⟩ ∧
        ((v.drop off).take (min (v.length - off) cap)).length = min (v.length - off) cap)) := by
  refine ⟨fun h => by simp [kv_retrieve, h], fun v hv => ⟨fun hoff => ?_, fun hoff => ⟨?_, ?_⟩⟩⟩
  · simp [kv_retrieve, hv, hoff]
  · have hno : ¬ v.length ≤ off := Nat.not_le.mpr hoff
    simp [kv_retrieve, hv, hno]
  · simp only [List.length_take, List.length_drop]
    omega

/-- Claim C7 witness: store holding key [1] with value [2,3,4], offset 1,
caller capacity 1. -/
theorem retrieve_spec_witness :
    1 < ([2, 3, 4] : Val).length ∧
    (kv_retrieve ⟨0, 0, [([1], [2, 3, 4])]⟩ [1] 1 1 =
       ⟨KvResult.success, ⟨0, 0, [([1], [2, 3, 4])]⟩,
        some ((([2, 3, 4] : Val).drop 1).take (min (([2, 3, 4] : Val).length - 1) 1)),
        some (min (([2, 3, 4] : Val).length - 1) 1)⟩ ∧
     ((([2, 3, 4] : Val).drop 1).take (min (([2, 3, 4] : Val).length - 1) 1)).length
       = min (([2, 3, 4] : Val).length - 1) 1) :=
  ⟨by decide,
   ((retrieve_spec ⟨0, 0, [([1], [2, 3, 4])]⟩ [1] 1 1).2 [2, 3, 4] (by decide)).2 (by decide)⟩

/-- Claim C9: deleting a well-formed but absent key succeeds, leaves the state
unchanged and never writes the recovered-bytes output; the output is written,
with key.length + value.length, exactly when an entry was removed. -/
theorem delete_absent_no_output (st : EmuState) (k : Key) (recNonNull : Bool) :
    (findEntry st.entries k = none →
      kv_delete st (some k) recNonNull = ⟨KvResult.success, st, none⟩) ∧
    (∀ v, findEntry st.entries k = some v →
      (kv_delete st (some k) true).written = some (k.length + v.length) ∧
      (kv_delete st (some k) true).res = KvResult.success) := by
  refine ⟨fun h => by simp [kv_delete, h], fun v hv => by simp [kv_delete, hv]⟩

/-- Claim C9 witness: deleting the absent key [7] from a store holding only
[5]. -/
theorem delete_absent_no_output_witness :
    findEntry ([([5], [6])] : List (Key × Val)) [7] = none ∧
    kv_delete ⟨0, 9, [([5], [6])]⟩ (some [7]) true = ⟨KvResult.success, ⟨0, 9, [([5], [6])]⟩, none⟩ :=
  ⟨by decide, (delete_absent_no_output ⟨0, 9, [([5], [6])]⟩ [7] true).1 (by decide)⟩

/-- The iteration protocol of the spec: call kv_iterator_next_set repeatedly,
with a fresh buffer of the same capacity, until the end flag is reported,
concatenating the yielded keys; fuel bounds the number of calls and none
marks running out of fuel before the end flag. -/
def iterPages (bufSize : Nat) : IterHandle → List (Key × Val) → Nat → Option (List Key)
  | _, _, 0 => none
  | h, entries, fuel + 1 =>
    let out := kv_iterator_next_set h bufSize entries
    if out.endFlag then some out.yielded
    else
      match iterPages bufSize out.hdl out.entries fuel with
      | some more => some (out.yielded ++ more)
      | none => none

/-- The maximal leading run of entries accepted by the batch loop at and after
the first stored key not below the 4-byte start key of the condition. -/
def groupRun (m p : Nat) (entries : List (Key × Val)) : List (Key × Val) :=
  (entries.dropWhile (fun e => keyLt e.1 (le32bytes (p &&& m)))).takeWhile
    (fun e => stepOk (m == 0) m p e.1)

theorem takeWhile_mem_true (q : Key × Val → Bool) :
    ∀ (l : List (Key × Val)) (e : Key × Val), e ∈ l.takeWhile q → q e = true := by
  intro l
  induction l with
  | nil => intro e he; cases he
  | cons a tl ih =>
    intro e he
    by_cases hq : q a = true
    · rw [List.takeWhile_cons_of_pos hq] at he
      rcases List.mem_cons.mp he with h | h
      · exact h ▸ hq
      · exact ih e h
    · rw [List.takeWhile_cons_of_neg hq] at he
      cases he

theorem dropWhile_head_false (q : Key × Val → Bool) :
    ∀ (l : List (Key × Val)) (e : Key × Val) (t : List (Key × Val)),
      l.dropWhile q = e :: t → q e = false := by
  intro l
  induction l with
  | nil => intro e t h; cases h
  | cons a tl ih =>
    intro e t h
    by_cases hq : q a = true
    · rw [List.dropWhile_cons_of_pos hq] at h
      exact ih e t h
    · rw [List.dropWhile_cons_of_neg hq] at h
      cases h
      exact Bool.not_eq_true _ ▸ eq_false_of_ne_true hq

theorem dropWhile_keyLt_at (x : Key × Val) :
    ∀ (c : List (Key × Val)) (d : List (Key × Val)),
      (∀ e ∈ c, keyLt e.1 x.1 = true) →
      (c ++ x :: d).dropWhile (fun e => keyLt e.1 x.1) = x :: d := by
  intro c
  induction c with
  | nil =>
    intro d _
    simp [List.dropWhile_cons, keyLt_irrefl]
  | cons a c ih =>
    intro d hc
    have ha : keyLt a.1 x.1 = true := hc a (List.mem_cons_self a c)
    rw [List.cons_append]
    simp only [List.dropWhile_cons, ha, if_true]
    exact ih d fun e he => hc e (List.mem_cons_of_mem a he)

theorem pairwise_before (l c d : List (Key × Val)) (x : Key × Val)
    (hs : l.Pairwise (fun a b => keyLt a.1 b.1 = true)) (hl : l = c ++ x :: d) :
    ∀ e ∈ c, keyLt e.1 x.1 = true := by
  subst hl
  rw [List.pairwise_append] at hs
  exact fun e he => hs.2.2 e he x (List.mem_cons_self x d)

theorem nextSetLoop_run (iterAll : Bool) (m p : Nat) (inclV delV fixedK : Bool) (bufSize : Nat) :
    ∀ (run rest : List (Key × Val)) (pos : Nat),
      (∀ e ∈ run, stepOk iterAll m p e.1 = true) →
      (∀ e t, rest = e :: t → stepOk iterAll m p e.1 = false) →
      ∃ i, i ≤ run.length ∧
        (∀ e t, run = e :: t → pos + checkSize inclV fixedK e ≤ bufSize → 1 ≤ i) ∧
        nextSetLoop iterAll m p inclV delV fixedK bufSize (run ++ rest) pos =
          ⟨(run.take i).map Prod.fst, i == run.length,
           ((run.drop i).head?).map Prod.fst,
           (if delV then run.drop i else run) ++ rest⟩ := by
  intro run
  induction run with
  | nil =>
    intro rest pos _ hrest
    refine ⟨0, Nat.le_refl 0, ?_, ?_⟩
    · intro e t h hle
      exact List.noConfusion h
    · cases rest with
      | nil => simp [nextSetLoop]
      | cons e t => simp [nextSetLoop, hrest e t rfl]
  | cons e tl ih =>
    intro rest pos hrun hrest
    have hoke : stepOk iterAll m p e.1 = true := hrun e (List.mem_cons_self e tl)
    by_cases hsz : bufSize < pos + checkSize inclV fixedK e
    · refine ⟨0, Nat.zero_le _, ?_, ?_⟩
      · intro a t h hle
        injection h with h1 h2
        subst h1
        omega
      · simp [nextSetLoop, hoke, hsz]
    · obtain ⟨i, hile, _, heq⟩ :=
        ih rest (pos + writeSize inclV fixedK e)
          (fun a ha => hrun a (List.mem_cons_of_mem e ha)) hrest
      refine ⟨i + 1, Nat.succ_le_succ hile, fun a t h hle => Nat.succ_le_succ (Nat.zero_le i), ?_⟩
      rw [List.cons_append]
      simp only [nextSetLoop, hoke, hsz]
      cases delV <;> simp [heq]

theorem nextSet_run (h : IterHandle) (bufSize : Nat) (entries run rest : List (Key × Val))
    (hsuf : entries.dropWhile (fun e => keyLt e.1 h.current_key) = run ++ rest)
    (hrun : ∀ e ∈ run, stepOk (h.bitmask == 0) h.bitmask h.bit_pattern e.1 = true)
    (hrest : ∀ e t, rest = e :: t → stepOk (h.bitmask == 0) h.bitmask h.bit_pattern e.1 = false) :
    ∃ i, i ≤ run.length ∧
      (∀ e t, run = e :: t → checkSize (includeV h.it_op) h.has_fixed_keylen e ≤ bufSize → 1 ≤ i) ∧
      kv_iterator_next_set h bufSize entries =
        ⟨(if (i == run.length) = true then KvResult.success else KvResult.wrnMore),
         ((run.take i).map Prod.fst).length,
         i == run.length,
         (run.take i).map Prod.fst,
         (match ((run.drop i).head?).map Prod.fst with
          | some ck => { h with current_key := ck }
          | none => h),
         entries.takeWhile (fun e => keyLt e.1 h.current_key) ++
           ((if deleteV h.it_op then run.drop i else run) ++ rest)⟩ := by
  obtain ⟨i, hile, hprog, heq⟩ :=
    nextSetLoop_run (h.bitmask == 0) h.bitmask h.bit_pattern (includeV h.it_op)
      (deleteV h.it_op) h.has_fixed_keylen bufSize run rest 0 hrun hrest
  refine ⟨i, hile, ?_, ?_⟩
  · intro e t hh hle
    exact hprog e t hh (by omega)
  · simp only [kv_iterator_next_set]
    rw [hsuf, heq]

theorem iterPages_run (bufSize : Nat) :
    ∀ (fuel : Nat) (h : IterHandle) (entries run rest : List (Key × Val)),
      entries.Pairwise (fun a b => keyLt a.1 b.1 = true) →
      entries.dropWhile (fun e => keyLt e.1 h.current_key) = run ++ rest →
      (∀ e ∈ run, stepOk (h.bitmask == 0) h.bitmask h.bit_pattern e.1 = true) →
      (∀ e t, rest = e :: t → stepOk (h.bitmask == 0) h.bitmask h.bit_pattern e.1 = false) →
      (∀ e ∈ run, checkSize (includeV h.it_op) h.has_fixed_keylen e ≤ bufSize) →
      run.length < fuel →
      iterPages bufSize h entries fuel = some (run.map Prod.fst) := by
  intro fuel
  induction fuel with
  | zero =>
    intro h entries run rest _ _ _ _ _ hfuel
    exact absurd hfuel (Nat.not_lt_zero _)
  | succ n ih =>
    intro h entries run rest hsorted hsuf hrun hrest hfit hfuel
    obtain ⟨i, hile, hprog, heq⟩ := nextSet_run h bufSize entries run rest hsuf hrun hrest
    by_cases hend : i = run.length
    · subst hend
      simp [iterPages, heq, List.take_length]
    · have hlt : i < run.length := Nat.lt_of_le_of_ne hile hend
      have hbeq : (i == run.length) = false := by simp [hend]
      obtain ⟨e0, tl0, hrun0⟩ : ∃ a b, run = a :: b := by
        cases run with
        | nil => simp at hlt
        | cons a b => exact ⟨a, b, rfl⟩
      have h1i : 1 ≤ i :=
        hprog e0 tl0 hrun0 (hfit e0 (by rw [hrun0]; exact List.mem_cons_self e0 tl0))
      cases hdrop : run.drop i with
      | nil =>
        have hlen := congrArg List.length hdrop
        rw [List.length_drop] at hlen
        simp at hlen
        omega
      | cons x dtl =>
        have hlen := congrArg List.length hdrop
        rw [List.length_drop] at hlen
        simp at hlen
        have hsplitrun : run = run.take i ++ x :: dtl := by
          rw [← hdrop]
          exact (List.take_append_drop i run).symm
        have hxentries : entries =
            (entries.takeWhile (fun e => keyLt e.1 h.current_key) ++ run.take i) ++
              (x :: (dtl ++ rest)) := by
          conv_lhs => rw [← List.takeWhile_append_dropWhile
            (p := fun e => keyLt e.1 h.current_key) (l := entries), hsuf, hsplitrun]
          simp [List.append_assoc]
        have hc : ∀ e ∈ entries.takeWhile (fun e => keyLt e.1 h.current_key) ++ run.take i,
            keyLt e.1 x.1 = true :=
          pairwise_before entries _ _ x hsorted hxentries
        have hsub : ∀ e ∈ (x :: dtl), e ∈ run := by
          intro e he
          rw [← hdrop] at he
          exact List.drop_subset i run he
        have hjoin : List.take i (run.map Prod.fst) ++ x.1 :: dtl.map Prod.fst
            = run.map Prod.fst := by
          have hj := congrArg (List.map Prod.fst) (List.take_append_drop i run)
          rw [List.map_append, hdrop] at hj
          simpa using hj
        have hfuel2 : (x :: dtl).length < n := by
          simp
          omega
        cases hdel : deleteV h.it_op with
        | false =>
          have hsplit : entries.takeWhile (fun e => keyLt e.1 h.current_key) ++ (run ++ rest)
              = entries := by
            rw [← hsuf]
            exact List.takeWhile_append_dropWhile _ _
          have hsuf2 : entries.dropWhile (fun e => keyLt e.1 x.1) = (x :: dtl) ++ rest := by
            conv_lhs => rw [hxentries]
            rw [dropWhile_keyLt_at x _ (dtl ++ rest) hc]
            rfl
          have hres := ih { h with current_key := x.1 } entries (x :: dtl) rest hsorted hsuf2
            (fun e he => hrun e (hsub e he)) hrest (fun e he => hfit e (hsub e he)) hfuel2
          simp [iterPages, heq, hbeq, hdrop, hdel, hsplit, hres]
          exact hjoin
        | true =>
          have hcpre : ∀ e ∈ entries.takeWhile (fun e => keyLt e.1 h.current_key),
              keyLt e.1 x.1 = true :=
            fun e he => hc e (List.mem_append_left _ he)
          have hsl : List.Sublist
              (entries.takeWhile (fun e => keyLt e.1 h.current_key) ++ x :: (dtl ++ rest))
              entries := by
            conv_rhs => rw [hxentries]
            rw [List.append_assoc]
            exact List.Sublist.append_left (List.sublist_append_right _ _) _
          have hsorted2 : (entries.takeWhile (fun e => keyLt e.1 h.current_key) ++
              x :: (dtl ++ rest)).Pairwise (fun a b => keyLt a.1 b.1 = true) :=
            List.Pairwise.sublist hsl hsorted
          have hsuf2 : (entries.takeWhile (fun e => keyLt e.1 h.current_key) ++
                x :: (dtl ++ rest)).dropWhile (fun e => keyLt e.1 x.1) = (x :: dtl) ++ rest := by
            rw [dropWhile_keyLt_at x _ (dtl ++ rest) hcpre]
            rfl
          have hres := ih { h with current_key := x.1 }
            (entries.takeWhile (fun e => keyLt e.1 h.current_key) ++ x :: (dtl ++ rest))
            (x :: dtl) rest hsorted2 hsuf2
            (fun e he => hrun e (hsub e he)) hrest (fun e he => hfit e (hsub e he)) hfuel2
          simp [iterPages, heq, hbeq, hdrop, hdel, hres]
          exact hjoin

/-- Claim C8 (amended): for every GroupCondition, every store content and
every iterator mode (delete-on-read included), repeated batch iteration on a
freshly opened handle, with each call given a buffer that fits any single
record of the run, reaches the end flag and yields across all pages exactly
the keys of the maximal leading run of entries accepted by the emulator match
test at and after the first stored key not below the 4-byte start key — each
key exactly once, in ascending key order.  In delete-on-read mode the yielded
entries are erased page by page, which leaves the keys yielded unchanged: the
buffer-full break precedes the erase, so the saved cursor entry is always
still in the map.  (The claim as stated, yielding all keys that match the
condition, is refuted separately: keys matching the test may lie outside
that run.) -/
theorem batch_iteration_run_complete (m p : Nat) (opt : IterOpt) (fixedK : Bool)
    (bufSize : Nat) (entries : List (Key × Val))
    (hsorted : entries.Pairwise (fun a b => keyLt a.1 b.1 = true))
    (hfit : ∀ e ∈ groupRun m p entries, checkSize (includeV opt) fixedK e ≤ bufSize) :
    iterPages bufSize (mkIterHandle opt m p fixedK) entries ((groupRun m p entries).length + 1)
      = some ((groupRun m p entries).map Prod.fst) ∧
    ((groupRun m p entries).map Prod.fst).Pairwise (fun a b => keyLt a b = true) ∧
    ((groupRun m p entries).map Prod.fst).Nodup := by
  have hsuf : entries.dropWhile (fun e => keyLt e.1 (mkIterHandle opt m p fixedK).current_key)
      = groupRun m p entries ++
        (entries.dropWhile (fun e => keyLt e.1 (le32bytes (p &&& m)))).dropWhile
          (fun e => stepOk (m == 0) m p e.1) :=
    (List.takeWhile_append_dropWhile (p := fun e => stepOk (m == 0) m p e.1)
      (l := entries.dropWhile (fun e => keyLt e.1 (le32bytes (p &&& m))))).symm
  have hpm : ((groupRun m p entries).map Prod.fst).Pairwise (fun a b => keyLt a b = true) := by
    rw [List.pairwise_map]
    exact List.Pairwise.sublist
      ((List.takeWhile_sublist _).trans (List.dropWhile_sublist _)) hsorted
  refine ⟨?_, hpm, ?_⟩
  · exact iterPages_run bufSize ((groupRun m p entries).length + 1)
      (mkIterHandle opt m p fixedK) entries (groupRun m p entries) _ hsorted hsuf
      (fun e he => takeWhile_mem_true _ _ e he)
      (fun e t ht => dropWhile_head_false _ _ e t ht)
      hfit (Nat.lt_succ_self _)
  · exact hpm.imp fun {a b} hlt heq => by
      subst heq
      simp [keyLt_irrefl] at hlt

/-- Claim C8 witness for the amended theorem: match-all condition over a
singleton store, in delete-on-read mode. -/
theorem batch_iteration_run_complete_witness :
    (([([0, 0, 0, 0], [1])] : List (Key × Val)).Pairwise fun a b => keyLt a.1 b.1 = true) ∧
    (iterPages 100 (mkIterHandle IterOpt.kvWithDelete 0 0 false) [([0, 0, 0, 0], [1])]
        ((groupRun 0 0 [([0, 0, 0, 0], [1])]).length + 1)
      = some ((groupRun 0 0 [([0, 0, 0, 0], [1])]).map Prod.fst) ∧
     ((groupRun 0 0 [([0, 0, 0, 0], [1])]).map Prod.fst).Pairwise (fun a b => keyLt a b = true) ∧
     ((groupRun 0 0 [([0, 0, 0, 0], [1])]).map Prod.fst).Nodup) :=
  ⟨by decide,
   batch_iteration_run_complete 0 0 IterOpt.kvWithDelete false 100 [([0, 0, 0, 0], [1])]
     (by decide) (by decide)⟩

/-- Claim C8 counterexample: bitmask = pattern = 0x01000000, sorted store
[0,5,0,0] then [0,9,0,1].  The key [0,9,0,1] satisfies even the claimed match
formula, yet iterating a fresh handle to the end flag yields no key at all:
the scan starts at the first key at or after [0,0,0,1] and stops at the first
non-matching entry [0,5,0,0] before ever reaching the matching key. -/
theorem batch_iteration_misses_matching_key :
    (([([0, 5, 0, 0], [7]), ([0, 9, 0, 1], [8])] : List (Key × Val)).Pairwise
        fun a b => keyLt a.1 b.1 = true) ∧
    claimMatch 16777216 16777216 [0, 9, 0, 1] = true ∧
    claimMatch 16777216 16777216 [0, 5, 0, 0] = false ∧
    (([([0, 5, 0, 0], [7]), ([0, 9, 0, 1], [8])] : List (Key × Val)).filter
        (fun e => claimMatch 16777216 16777216 e.1)).map Prod.fst = [[0, 9, 0, 1]] ∧
    iterPages 100 (mkIterHandle IterOpt.key 16777216 16777216 false)
        [([0, 5, 0, 0], [7]), ([0, 9, 0, 1], [8])] 3 = some [] ∧
    (some ([] : List Key) ≠ some [[0, 9, 0, 1]]) := by
  decide
